import Mathlib

/-!
Verification of the `enhanced-console` repository (src/enhanced-console.js).

The file shallow-embeds the `AsyncConsoleEnhancer` class: its configuration,
the console-method interception (`enhance`), the bounded log queue and batch
drain (`processQueue` / `processLogEntry`), the source-map resolver
(`loadSourceMap`), and teardown (`cleanup`).  Asynchronous effects (stack
capture, source-map resolution, cache and network I/O, consumer destruction)
are passed in as explicit environment parameters, so every definition is an
executable function of its inputs.
-/

namespace EnhancedConsole

/-- JavaScript runtime values, as far as the enhancer inspects them: it only
ever applies `typeof` and a `!== null` test to the last console argument
(enhanced-console.js lines 138-145), so values are modelled up to that
granularity.  `locObject loc` is the literal object `\x7b location \x7d`
built by `processLogEntry`; `objRef` stands for any other non-null object. -/
inductive JSVal where
  | str (s : String)
  | num (n : Int)
  | boolV (b : Bool)
  | undef
  | nullV
  | objRef (id : Nat)
  | locObject (location : String)
  | fnRef (id : Nat)
deriving DecidableEq

/-- The JavaScript `typeof` operator restricted to `JSVal`.  Note
`typeof null = "object"`, as in JavaScript. -/
def jsTypeof : JSVal → String
  | .str _ => "string"
  | .num _ => "number"
  | .boolV _ => "boolean"
  | .undef => "undefined"
  | .nullV => "object"
  | .objRef _ => "object"
  | .locObject _ => "object"
  | .fnRef _ => "function"

/-- Caller-supplied constructor options (every field optional), mirroring the
`options` parameter of the constructor (lines 19-31). -/
structure OptionsInput where
  batchSize : Option Nat := none
  flushInterval : Option Nat := none
  maxQueueSize : Option Nat := none
  sourceMapEnabled : Option Bool := none
  useCache : Option Bool := none
  cacheKey : Option String := none
  idleTimeout : Option Nat := none

/-- The resolved `this.options` snapshot. -/
structure Options where
  batchSize : Nat
  flushInterval : Nat
  maxQueueSize : Nat
  sourceMapEnabled : Bool
  useCache : Bool
  cacheKey : String
  idleTimeout : Nat
deriving DecidableEq

/-- The `??`-merge of caller options over defaults performed by the
constructor (lines 23-31). -/
def mkOptions (i : OptionsInput) : Options where
  batchSize := i.batchSize.getD 10
  flushInterval := i.flushInterval.getD 1000
  maxQueueSize := i.maxQueueSize.getD 1000
  sourceMapEnabled := i.sourceMapEnabled.getD true
  useCache := i.useCache.getD true
  cacheKey := i.cacheKey.getD "source-map-cache"
  idleTimeout := i.idleTimeout.getD 1000

/-- The five intercepted console method names (line 210). -/
inductive Method where
  | log | warn | error | info | debug
deriving DecidableEq

/-- The method list `['log','warn','error','info','debug']` in source order. -/
def methodNames : List Method := [.log, .warn, .error, .info, .debug]

/-- A console function value, compared by reference.  `native id` is any
function installed before (or outside) the enhancer; `wrapper g m` is the
closure created for method `m` by the `g`-th `enhance()` call — each
`enhance()` call creates fresh closures, hence the generation index. -/
inductive Fn where
  | native (id : Nat)
  | wrapper (gen : Nat) (m : Method)
deriving DecidableEq

/-- The mutable `console` object: one function slot per tracked method. -/
structure ConsoleObj where
  log : Fn
  warn : Fn
  error : Fn
  info : Fn
  debug : Fn
deriving DecidableEq

/-- `console[method]` read. -/
def getMethod (c : ConsoleObj) : Method → Fn
  | .log => c.log
  | .warn => c.warn
  | .error => c.error
  | .info => c.info
  | .debug => c.debug

/-- `console[method] = f` write. -/
def setMethod (c : ConsoleObj) : Method → Fn → ConsoleObj
  | .log, f => { c with log := f }
  | .warn, f => { c with warn := f }
  | .error, f => { c with error := f }
  | .info, f => { c with info := f }
  | .debug, f => { c with debug := f }

/-- A queued log entry `\x7b method, args, stack \x7d` (line 224). -/
structure LogEntry where
  method : Method
  args : List JSVal
  stack : String
deriving DecidableEq

/-- One call of a saved console function: `fn.apply(console, args)`. -/
structure Emit where
  fn : Fn
  args : List JSVal
deriving DecidableEq

/-- `Map.set`: replace the binding of `k` (here by moving it to the front,
which preserves `lookup` semantics) or insert it. -/
def mapSet {α β : Type} [DecidableEq α] (l : List (α × β)) (k : α) (v : β) :
    List (α × β) :=
  (k, v) :: l.filter (fun p => decide (p.1 ≠ k))

/-- The extra argument appended in the queue-full fallback (line 220). -/
def queueFullMarker : JSVal :=
  JSVal.str "\n(Queue full - using original console)"

/-- The per-instance mutable state of `AsyncConsoleEnhancer`:
`console` is the global console object the instance patches, the remaining
fields are the instance fields of the constructor (lines 20-34).
`enhanceGen` counts `enhance()` calls so that each call's freshly created
wrapper closures are distinct `Fn` values. -/
structure EState where
  console : ConsoleObj
  originalMethods : List (Method × Fn)
  logQueue : List LogEntry
  isProcessing : Bool
  sourceMapCache : List (String × Nat)
  pendingSourceMaps : List String
  intervalSet : Bool
  enhanceGen : Nat
deriving DecidableEq

/-- A freshly constructed enhancer attached to console `c`
(constructor, lines 19-35: empty cache, empty queue, empty registries). -/
def initE (c : ConsoleObj) : EState where
  console := c
  originalMethods := []
  logQueue := []
  isProcessing := false
  sourceMapCache := []
  pendingSourceMaps := []
  intervalSet := false
  enhanceGen := 0

/-- Lines 135-145 of `processLogEntry`: copy `args` and append one location
argument chosen by the `typeof` of `args[args.length - 1]` (which is
`undefined` when `args` is empty). -/
def appendLocation (args : List JSVal) (originalLocation : String) :
    List JSVal :=
  let lastArg := (args.getLast?).getD JSVal.undef
  if jsTypeof lastArg = "string" then
    args ++ [JSVal.str ("\n" ++ originalLocation)]
  else if jsTypeof lastArg = "object" ∧ lastArg ≠ JSVal.nullV then
    args ++ [JSVal.locObject originalLocation]
  else
    args ++ [JSVal.str originalLocation]

/-- The extra location argument as the specification words it (spec section 6):
a string last argument gets the string `"\n" + location`; a non-null object
last argument gets the sibling object `\x7b location \x7d`; anything else —
including a call with no arguments — gets the raw location string.  Stated
from the spec, to be compared with `appendLocation` from the source. -/
def specLocationExtra (args : List JSVal) (location : String) : JSVal :=
  match args.getLast? with
  | some (JSVal.str _) => JSVal.str ("\n" ++ location)
  | some JSVal.nullV => JSVal.str location
  | some (JSVal.objRef _) => JSVal.locObject location
  | some (JSVal.locObject _) => JSVal.locObject location
  | _ => JSVal.str location

/-- `processLogEntry` (lines 132-152).  `locResult` is the outcome of
`await this.getOriginalLocation(stack)`: `.ok loc` a resolved (or passed
through) location string, `.error ()` a thrown error.  The emitting call is
`this.originalMethods.get(method).apply(console, ...)`; when the registry has
no binding for `method`, that expression throws both in the `try` body and in
the `catch` fallback, so the entry produces no emission and the error
propagates (as a rejected promise), modelled by `.error ()`. -/
def processLogEntry (registry : List (Method × Fn))
    (locResult : Except Unit String) (e : LogEntry) : Except Unit Emit :=
  match registry.lookup e.method with
  | some f =>
    match locResult with
    | .ok loc => .ok ⟨f, appendLocation e.args loc⟩
    | .error _ => .ok ⟨f, e.args⟩
  | none => .error ()

/-- `batch.map(entry => this.processLogEntry(entry))` (line 165), with the
per-entry resolution outcome given by the oracle `locOf`. -/
def processBatch (registry : List (Method × Fn))
    (locOf : LogEntry → Except Unit String) (batch : List LogEntry) :
    List (Except Unit Emit) :=
  batch.map fun e => processLogEntry registry (locOf e) e

/-- `processQueue` (lines 158-176): guarded by `isProcessing` and emptiness,
splice the first `batchSize` entries off the front and process them with
`Promise.all`.  A rejected member does not stop the others (they were all
started), so the emissions are exactly the successful entries; the rejection
itself is caught and logged (line 167).  The `Bool` result records whether
`scheduleQueueProcessing()` was called for a non-empty remainder (line 174) —
that call only queues a later drain, it does not run it.  `isProcessing` is
set and reset within the call, so it is unchanged in the result. -/
def processQueue (opts : Options) (locOf : LogEntry → Except Unit String)
    (s : EState) : EState × List Emit × Bool :=
  if s.isProcessing || s.logQueue.isEmpty then (s, [], false)
  else
    let batch := s.logQueue.take opts.batchSize
    let rest := s.logQueue.drop opts.batchSize
    let emits :=
      (processBatch s.originalMethods locOf batch).filterMap Except.toOption
    ({ s with logQueue := rest }, emits, !rest.isEmpty)

/-- The wrapper installed by `enhance()` for one method (lines 214-230).
`original` is the closure-captured pre-wrap function; `captureResult` is the
outcome of `new Error().stack.split('\n')[2]` (`.error ()` when capturing
throws, e.g. `stack` is absent).  Returns the new state and the direct
emission, if any: a capture failure falls back to `original` with the
unmodified arguments (line 228); a full queue emits `original` with the
queue-full marker appended and stores nothing (lines 219-222); otherwise the
entry is pushed and a drain is scheduled (no synchronous emission). -/
def wrapperCall (opts : Options) (original : Fn)
    (captureResult : Except Unit String) (s : EState) (m : Method)
    (args : List JSVal) : EState × Option Emit :=
  match captureResult with
  | .error _ => (s, some ⟨original, args⟩)
  | .ok stack =>
    if opts.maxQueueSize ≤ s.logQueue.length then
      (s, some ⟨original, args ++ [queueFullMarker]⟩)
    else
      ({ s with logQueue := s.logQueue ++ [⟨m, args, stack⟩] }, none)

/-- One iteration of the `forEach` in `enhance()` (lines 210-231): read
`console[method]`, record it in `originalMethods`, install the wrapper. -/
def enhanceMethod (g : Nat) (s : EState) (m : Method) : EState :=
  let original := getMethod s.console m
  { s with
      originalMethods := mapSet s.originalMethods m original
      console := setMethod s.console m (Fn.wrapper g m) }

/-- `enhance()` (lines 209-235): wrap all five methods, then start the
periodic flush timer.  The returned teardown closure is `() => cleanup()`,
so it needs no separate model. -/
def enhance (s : EState) : EState :=
  let g := s.enhanceGen
  let s1 := methodNames.foldl (enhanceMethod g) s
  { s1 with intervalSet := true, enhanceGen := g + 1 }

/-- `console[method] = original` for every registry entry (lines 256-258). -/
def restoreAll (c : ConsoleObj) (registry : List (Method × Fn)) : ConsoleObj :=
  registry.foldl (fun co p => setMethod co p.1 p.2) c

/-- `cleanup()` (lines 240-260), up to the point its promise resolves:
stop the timer; if the queue is non-empty, `await this.processQueue()` —
which drains ONE batch and at most schedules (does not await) a further
drain; destroy every cached consumer (`destroyOk` tells whether a given
consumer's `destroy()` returns normally — a throw rejects `cleanup` itself,
modelled by `.error ()`); clear both source-map registries; restore every
original method and clear the registry.  The `Bool` in the result is the
scheduled-further-drain flag from `processQueue`. -/
def cleanup (opts : Options) (locOf : LogEntry → Except Unit String)
    (destroyOk : Nat → Bool) (s : EState) :
    Except Unit (EState × List Emit × Bool) :=
  let r :=
    if s.logQueue.isEmpty then ({ s with intervalSet := false }, [], false)
    else processQueue opts locOf { s with intervalSet := false }
  if r.1.sourceMapCache.all (fun p => destroyOk p.2) then
    .ok ({ r.1 with
            sourceMapCache := []
            pendingSourceMaps := []
            console := restoreAll r.1.console r.1.originalMethods
            originalMethods := [] },
         r.2.1, r.2.2)
  else .error ()

/-- An I/O action performed by one `loadSourceMap` body: opening the platform
cache store, probing it, fetching over the network, writing back. -/
inductive IoEvent where
  | cacheOpen
  | cacheProbe (url : String)
  | netFetch (url : String)
  | cachePut (url : String)
deriving DecidableEq

/-- The environment one execution of the `loadSourceMap` body observes.
Responses, raw maps and consumers are abstract (`Nat` identities); every
`await`ed step that can throw is an `Except`.  `parse` models
`new sourceMap.SourceMapConsumer(sourceMap)`, the external parser. -/
structure LoadEnv where
  cachesInWindow : Bool
  openOk : Bool
  probeResult : Except Unit (Option Nat)
  fetchResult : Except Unit Nat
  respOk : Nat → Bool
  jsonOf : Nat → Except Unit Nat
  parse : Nat → Except Unit Nat
  openOk2 : Bool
  putOk : Bool

/-- The `try`/`catch` body of the load promise (lines 53-93), run to
completion: result of the promise, the in-memory cache after the run (cache
writes performed before a later throw persist, exactly as in the source),
and the list of I/O actions performed.  Any throw is caught at line 87 and
yields `none`. -/
def loadBody (opts : Options) (env : LoadEnv) (mem : List (String × Nat))
    (fileUrl : String) : Option Nat × List (String × Nat) × List IoEvent :=
  let net : List IoEvent → Option Nat × List (String × Nat) × List IoEvent :=
    fun io0 =>
      let io1 := io0 ++ [IoEvent.netFetch (fileUrl ++ ".map")]
      match env.fetchResult with
      | .error _ => (none, mem, io1)
      | .ok resp =>
        if env.respOk resp = false then (none, mem, io1)
        else
          match env.jsonOf resp with
          | .error _ => (none, mem, io1)
          | .ok raw =>
            match env.parse raw with
            | .error _ => (none, mem, io1)
            | .ok consumer =>
              let mem2 := mapSet mem fileUrl consumer
              if opts.useCache && env.cachesInWindow then
                let io2 := io1 ++ [IoEvent.cacheOpen]
                if env.openOk2 = false then (none, mem2, io2)
                else
                  let io3 := io2 ++ [IoEvent.cachePut (fileUrl ++ ".map")]
                  if env.putOk = false then (none, mem2, io3)
                  else (some consumer, mem2, io3)
              else (some consumer, mem2, io1)
  if opts.useCache && env.cachesInWindow then
    if env.openOk = false then (none, mem, [IoEvent.cacheOpen])
    else
      let io1 := [IoEvent.cacheOpen, IoEvent.cacheProbe (fileUrl ++ ".map")]
      match env.probeResult with
      | .error _ => (none, mem, io1)
      | .ok (some resp) =>
        match env.jsonOf resp with
        | .error _ => (none, mem, io1)
        | .ok raw =>
          match env.parse raw with
          | .error _ => (none, mem, io1)
          | .ok consumer =>
            (some consumer, mapSet mem fileUrl consumer, io1)
      | .ok none => net io1
  else net []

/-- `loadSourceMap` (lines 42-97) as one run-to-completion call: memory-cache
hit (line 44) and pending-load join (line 49) short-circuit with no I/O;
otherwise the load body runs.  In this atomic model the transient
`pendingSourceMaps` entry (set at line 95, deleted by the `finally` at line
91) has no net effect; the interleaved pending-load behaviour is modelled
separately by `rstep` below.  A joined pending load's value is not available
atomically, so that branch returns `none` here; the theorems about this
definition are stated away from it. -/
def loadSourceMapOnce (opts : Options) (env : LoadEnv) (s : EState)
    (fileUrl : String) : Option Nat × EState × List IoEvent :=
  match s.sourceMapCache.lookup fileUrl with
  | some c => (some c, s, [])
  | none =>
    if fileUrl ∈ s.pendingSourceMaps then (none, s, [])
    else
      let r := loadBody opts env s.sourceMapCache fileUrl
      (r.1, { s with sourceMapCache := r.2.1 }, r.2.2)

/-! ### Interleaved resolver model

`loadSourceMap` calls and load completions interleave on the single JS
thread.  The events below are the two atomic transitions the source performs
on the shared maps: a call runs synchronously through the checks at lines
44-51 and, if it starts a load, registers the pending entry (line 95) before
any other task can run; a completion runs the tail of the load — on success
the consumer was stored in `sourceMapCache` (line 62 or 75), and the
`finally` (line 91) removes the pending entry whatever the outcome. -/

/-- An atomic transition of the resolver's shared state. -/
inductive REvent where
  | call (url : String)
  | complete (url : String) (success : Bool)
deriving DecidableEq

/-- The resolver's shared state: URLs with a cached consumer, URLs with an
in-flight load, and the history of load starts (each start performs the one
cache-probe/network fetch of that load). -/
structure RState where
  memCache : List String
  pending : List String
  startedLoads : List String
deriving DecidableEq

/-- One atomic transition (see the section comment): a `call` either hits the
memory cache, joins the pending load, or starts a new load; a `complete`
removes the pending entry and, on success, records the cached consumer.
A `complete` for a URL with no pending load cannot arise from the source and
is a no-op. -/
def rstep (s : RState) : REvent → RState
  | .call url =>
    if url ∈ s.memCache then s
    else if url ∈ s.pending then s
    else { s with
            pending := url :: s.pending
            startedLoads := url :: s.startedLoads }
  | .complete url success =>
    if url ∈ s.pending then
      { memCache := if success then url :: s.memCache else s.memCache
        pending := s.pending.erase url
        startedLoads := s.startedLoads }
    else s

/-- Run the resolver from a fresh instance (both maps empty, line 20/34). -/
def rrun (evs : List REvent) : RState :=
  evs.foldl rstep ⟨[], [], []⟩

/-- The states an enhancer instance can reach: the constructor, followed by
any sequence of the operations the source performs on the instance state. -/
inductive Reach (opts : Options) : EState → Prop where
  | init (c : ConsoleObj) : Reach opts (initE c)
  | enh {s : EState} : Reach opts s → Reach opts (enhance s)
  | wcall {s : EState} (original : Fn) (cap : Except Unit String) (m : Method)
      (args : List JSVal) : Reach opts s →
      Reach opts (wrapperCall opts original cap s m args).1
  | pq {s : EState} (locOf : LogEntry → Except Unit String) : Reach opts s →
      Reach opts (processQueue opts locOf s).1
  | lsm {s : EState} (env : LoadEnv) (url : String) : Reach opts s →
      Reach opts (loadSourceMapOnce opts env s url).2.1
  | cln {s s2 : EState} {em : List Emit} {b : Bool}
      (locOf : LogEntry → Except Unit String) (destroyOk : Nat → Bool) :
      Reach opts s → cleanup opts locOf destroyOk s = .ok (s2, em, b) →
      Reach opts s2

/-! ## Claim theorems -/

/-- The options of the C1 failing scenario: `batchSize = 1`, all other
options at their defaults. -/
def c1opts : Options := { mkOptions {} with batchSize := 1 }

/-- A console of five distinct pre-install functions. -/
def nativeConsole : ConsoleObj :=
  ⟨.native 0, .native 1, .native 2, .native 3, .native 4⟩

/-- The C1 failing scenario: an enhanced instance with two entries pending. -/
def c1state : EState :=
  { enhance (initE nativeConsole) with
      logQueue := [⟨.log, [JSVal.str "a"], "s1"⟩,
                   ⟨.log, [JSVal.str "b"], "s2"⟩] }

/-- C1: the claim fails on the code.  With `batchSize = 1` and `N = 2`
entries pending, `cleanup()` awaits a single `processQueue()` call, which
drains one batch and only schedules — does not await — the follow-up drain
(line 174 runs `scheduleQueueProcessing()`, line 245 awaits nothing beyond
the first call).  So at the moment the cleanup promise resolves exactly one
entry has been flushed, the second entry is still queued, and the console
methods and registry have already been restored/cleared; when the scheduled
drain later runs, `originalMethods.get(method)` is `undefined` and the entry
is dropped without ever being emitted.  This theorem evaluates the model at
that input: one emission at resolve time, the second entry left queued with
the registry empty and a drain merely scheduled, and the deferred drain
emitting nothing. -/
theorem cleanup_flushes_only_first_batch :
    ((cleanup c1opts (fun _ => .ok "loc") (fun _ => true) c1state).toOption.map
      fun r =>
        (r.2.1.length, r.1.logQueue, r.1.originalMethods, r.2.2,
         (processQueue c1opts (fun _ => .ok "loc") r.1).2.1)) =
      some (1, [⟨.log, [JSVal.str "b"], "s2"⟩], [], true, []) := by
  rfl

/-- C2 counterexample: after a first `enhance()` the registry maps `log` to
the pre-install function, but a second `enhance()` call re-reads
`console[method]` — now the wrapper — and overwrites the registry entry with
it (lines 211-212 have no population guard), refuting the claim that no
later `enhance()` call replaces the mapping with a wrapper. -/
theorem second_enhance_overwrites_registry :
    (enhance (initE nativeConsole)).originalMethods.lookup Method.log =
        some (Fn.native 0) ∧
      (enhance (enhance (initE nativeConsole))).originalMethods.lookup
          Method.log = some (Fn.wrapper 0 Method.log) := by
  decide

/-- C2 amended: the registry holds the pre-install console functions after
the FIRST `enhance()` call on a fresh instance; a second `enhance()` call
does overwrite it with the wrappers the first call installed (double-install
is the caller's responsibility per the spec's interface section). -/
theorem registry_holds_preinstall_after_first_enhance (c : ConsoleObj)
    (m : Method) :
    (enhance (initE c)).originalMethods.lookup m = some (getMethod c m) := by
  cases m <;> rfl

/-- The environment of the failed-cache-write scenario (C3, C10): platform
cache available and empty, network fetch succeeds with a parsable map
(consumer `42`), and the write-back `cache.put` throws. -/
def putFailEnv : LoadEnv where
  cachesInWindow := true
  openOk := true
  probeResult := .ok none
  fetchResult := .ok 5
  respOk := fun _ => true
  jsonOf := fun _ => .ok 7
  parse := fun _ => .ok 42
  openOk2 := true
  putOk := false

/-- C3 counterexample: the in-memory cache misses, the fetch of
`"app.js.map"` succeeds and parses into consumer `42`, the `cache.put`
write-back throws — and `loadSourceMap` resolves `none`, not the parsed
consumer: the `cache.put` at line 80 sits inside the same `try` whose
`catch` (line 87) turns any throw into `null`, so a cache-write failure IS a
resolution failure for that call, refuting the claim. -/
theorem cache_put_failure_returns_null :
    (loadSourceMapOnce (mkOptions {}) putFailEnv (initE nativeConsole)
        "app.js").1 = none ∧
      putFailEnv.parse 7 = .ok 42 := by
  exact ⟨rfl, rfl⟩

/-- C7: the wrapper installed by `enhance()` never lets an exception reach
the caller: whatever the stack-capture outcome and state, the call either
stores the entry (no synchronous emission), or invokes the saved original
with the caller's arguments, or invokes it with the queue-full marker
appended; and when capturing the stack line throws, the saved original is
invoked with the original, unmodified arguments and the state (in particular
the queue) is untouched. -/
theorem wrapper_call_never_throws (opts : Options) (original : Fn)
    (s : EState) (m : Method) (args : List JSVal) :
    (∀ cap, (wrapperCall opts original cap s m args).2 = none ∨
      (wrapperCall opts original cap s m args).2 = some ⟨original, args⟩ ∨
      (wrapperCall opts original cap s m args).2 =
        some ⟨original, args ++ [queueFullMarker]⟩) ∧
    wrapperCall opts original (.error ()) s m args =
      (s, some ⟨original, args⟩) := by
  constructor
  · intro cap
    cases cap with
    | error e => simp [wrapperCall]
    | ok stack =>
      by_cases h : opts.maxQueueSize ≤ s.logQueue.length
      · simp [wrapperCall, h]
      · simp [wrapperCall, h]
  · rfl

/-- C9: for every processed entry, exactly one extra location argument is
appended, chosen by the type of the last original argument exactly as the
spec words it (`specLocationExtra`): a string last argument gets
`"\n" + location` as a new trailing string, a non-null object last argument
gets the object `\x7b location \x7d`, anything else — including an entry
with no arguments — gets the raw location string; and the emitted call of a
successfully processed entry carries exactly those arguments. -/
theorem appended_location_matches_last_arg_type (args : List JSVal)
    (loc : String) (m : Method) (f : Fn) (stack : String) :
    appendLocation args loc = args ++ [specLocationExtra args loc] ∧
    processLogEntry [(m, f)] (.ok loc) ⟨m, args, stack⟩ =
      .ok ⟨f, args ++ [specLocationExtra args loc]⟩ := by
  have h1 : appendLocation args loc = args ++ [specLocationExtra args loc] := by
    cases hl : args.getLast? with
    | none => simp [appendLocation, specLocationExtra, hl, jsTypeof]
    | some v =>
      cases v <;> simp [appendLocation, specLocationExtra, hl, jsTypeof]
  refine ⟨h1, ?_⟩
  simp [processLogEntry, List.lookup, h1]

/-- Looking up the key just set by `mapSet` yields the new value. -/
theorem lookup_mapSet_self {α β : Type} [DecidableEq α] (l : List (α × β))
    (k : α) (v : β) : (mapSet l k v).lookup k = some v := by
  simp [mapSet, List.lookup]

/-- `loadBody` on the failed-write path: cache probe misses, fetch succeeds,
the map parses to `c`, the write-back throws.  The body returns `none`, yet
the consumer is already in the in-memory cache, and the I/O trace shows the
probe, the single fetch, and the attempted put in source order. -/
theorem loadBody_put_failure (opts : Options) (env : LoadEnv)
    (mem : List (String × Nat)) (url : String) (resp raw c : Nat)
    (huse : opts.useCache = true) (hwin : env.cachesInWindow = true)
    (hopen : env.openOk = true) (hprobe : env.probeResult = .ok none)
    (hfetch : env.fetchResult = .ok resp) (hok : env.respOk resp = true)
    (hjson : env.jsonOf resp = .ok raw) (hparse : env.parse raw = .ok c)
    (hopen2 : env.openOk2 = true) (hput : env.putOk = false) :
    loadBody opts env mem url =
      (none, mapSet mem url c,
       [IoEvent.cacheOpen, IoEvent.cacheProbe (url ++ ".map"),
        IoEvent.netFetch (url ++ ".map"), IoEvent.cacheOpen,
        IoEvent.cachePut (url ++ ".map")]) := by
  simp [loadBody, huse, hwin, hopen, hprobe, hfetch, hok, hjson, hparse,
    hopen2, hput]

/-- A `loadSourceMap` call that misses the memory cache with no load in
flight runs the load body. -/
theorem loadSourceMapOnce_miss (opts : Options) (env : LoadEnv) (s : EState)
    (url : String) (hmem : s.sourceMapCache.lookup url = none)
    (hpend : url ∉ s.pendingSourceMaps) :
    loadSourceMapOnce opts env s url =
      ((loadBody opts env s.sourceMapCache url).1,
       { s with sourceMapCache := (loadBody opts env s.sourceMapCache url).2.1 },
       (loadBody opts env s.sourceMapCache url).2.2) := by
  simp [loadSourceMapOnce, hmem, hpend]

/-- A `loadSourceMap` call that hits the memory cache returns the cached
consumer with no I/O and no state change (line 44). -/
theorem loadSourceMapOnce_hit (opts : Options) (env : LoadEnv) (s : EState)
    (url : String) (c : Nat) (hmem : s.sourceMapCache.lookup url = some c) :
    loadSourceMapOnce opts env s url = (some c, s, []) := by
  simp [loadSourceMapOnce, hmem]

/-- C3 amended: when the memory cache misses, the fetch of `url + ".map"`
succeeds and the map parses, but the best-effort write into the platform
cache store throws, the `loadSourceMap` call resolves `null` to its caller
(the write failure IS a resolution failure for that call, because the
`cache.put` sits inside the load's one `try`/`catch`); the parsed consumer
is nonetheless already stored in the in-memory cache. -/
theorem cache_put_failure_null_but_memoized (opts : Options) (env : LoadEnv)
    (s : EState) (url : String) (resp raw c : Nat)
    (hmem : s.sourceMapCache.lookup url = none)
    (hpend : url ∉ s.pendingSourceMaps)
    (huse : opts.useCache = true) (hwin : env.cachesInWindow = true)
    (hopen : env.openOk = true) (hprobe : env.probeResult = .ok none)
    (hfetch : env.fetchResult = .ok resp) (hok : env.respOk resp = true)
    (hjson : env.jsonOf resp = .ok raw) (hparse : env.parse raw = .ok c)
    (hopen2 : env.openOk2 = true) (hput : env.putOk = false) :
    (loadSourceMapOnce opts env s url).1 = none ∧
    (loadSourceMapOnce opts env s url).2.1.sourceMapCache.lookup url =
      some c := by
  rw [loadSourceMapOnce_miss opts env s url hmem hpend,
    loadBody_put_failure opts env s.sourceMapCache url resp raw c huse hwin
      hopen hprobe hfetch hok hjson hparse hopen2 hput]
  exact ⟨rfl, lookup_mapSet_self s.sourceMapCache url c⟩

/-- Witness for C3 amended at the concrete failed-write environment. -/
theorem cache_put_failure_null_but_memoized_witness :
    (loadSourceMapOnce (mkOptions {}) putFailEnv (initE nativeConsole)
        "app.js").1 = none ∧
    (loadSourceMapOnce (mkOptions {}) putFailEnv (initE nativeConsole)
        "app.js").2.1.sourceMapCache.lookup "app.js" = some 42 :=
  cache_put_failure_null_but_memoized (mkOptions {}) putFailEnv
    (initE nativeConsole) "app.js" 5 7 42 rfl (by simp [initE]) rfl rfl rfl
    rfl rfl rfl rfl rfl rfl rfl

/-- C10: a successful network load whose platform-cache write-back throws
resolves `null` for that call, but the consumer was stored in the in-memory
cache before the write was attempted (the I/O trace contains the attempted
put), so every later call for the same URL — under any environment — returns
that consumer immediately, with no further network or cache I/O and no state
change. -/
theorem memoized_consumer_after_failed_cache_write (opts : Options)
    (env : LoadEnv) (s : EState) (url : String) (resp raw c : Nat)
    (hmem : s.sourceMapCache.lookup url = none)
    (hpend : url ∉ s.pendingSourceMaps)
    (huse : opts.useCache = true) (hwin : env.cachesInWindow = true)
    (hopen : env.openOk = true) (hprobe : env.probeResult = .ok none)
    (hfetch : env.fetchResult = .ok resp) (hok : env.respOk resp = true)
    (hjson : env.jsonOf resp = .ok raw) (hparse : env.parse raw = .ok c)
    (hopen2 : env.openOk2 = true) (hput : env.putOk = false) :
    (loadSourceMapOnce opts env s url).1 = none ∧
    IoEvent.cachePut (url ++ ".map") ∈ (loadSourceMapOnce opts env s url).2.2 ∧
    ∀ env2 : LoadEnv,
      loadSourceMapOnce opts env2 (loadSourceMapOnce opts env s url).2.1 url =
        (some c, (loadSourceMapOnce opts env s url).2.1, []) := by
  rw [loadSourceMapOnce_miss opts env s url hmem hpend,
    loadBody_put_failure opts env s.sourceMapCache url resp raw c huse hwin
      hopen hprobe hfetch hok hjson hparse hopen2 hput]
  refine ⟨rfl, by simp, fun env2 => ?_⟩
  exact loadSourceMapOnce_hit opts env2 _ url c
    (lookup_mapSet_self s.sourceMapCache url c)

/-- Witness for C10 at the concrete failed-write environment. -/
theorem memoized_consumer_after_failed_cache_write_witness :
    (loadSourceMapOnce (mkOptions {}) putFailEnv (initE nativeConsole)
        "app.js").1 = none ∧
    IoEvent.cachePut "app.js.map" ∈
      (loadSourceMapOnce (mkOptions {}) putFailEnv (initE nativeConsole)
        "app.js").2.2 ∧
    ∀ env2 : LoadEnv,
      loadSourceMapOnce (mkOptions {}) env2
          (loadSourceMapOnce (mkOptions {}) putFailEnv (initE nativeConsole)
            "app.js").2.1 "app.js" =
        (some 42,
         (loadSourceMapOnce (mkOptions {}) putFailEnv (initE nativeConsole)
           "app.js").2.1, []) :=
  memoized_consumer_after_failed_cache_write (mkOptions {}) putFailEnv
    (initE nativeConsole) "app.js" 5 7 42 rfl (by simp [initE]) rfl rfl rfl
    rfl rfl rfl rfl rfl rfl rfl

/-- C8: entries of a drained batch are processed independently: the batch
result decomposes pointwise, so an entry's outcome is a function of that
entry and its own resolution result alone, and its neighbours' results are
untouched by it; an entry whose resolution fails (e.g. a failed `.map`
fetch) is emitted via its original method with its original arguments; and
the emissions of a `processQueue` drain are exactly the per-entry results of
the spliced batch. -/
theorem batch_entries_processed_independently (registry : List (Method × Fn))
    (locOf : LogEntry → Except Unit String) (b1 b2 : List LogEntry)
    (e : LogEntry) (opts : Options) (s : EState) :
    processBatch registry locOf (b1 ++ e :: b2) =
      processBatch registry locOf b1 ++
        processLogEntry registry (locOf e) e :: processBatch registry locOf b2 ∧
    (∀ f u, registry.lookup e.method = some f → locOf e = .error u →
      processLogEntry registry (locOf e) e = .ok ⟨f, e.args⟩) ∧
    (s.isProcessing = false → s.logQueue = b1 ++ e :: b2 →
      (processQueue opts locOf s).2.1 =
        (processBatch s.originalMethods locOf
          ((b1 ++ e :: b2).take opts.batchSize)).filterMap Except.toOption) := by
  refine ⟨by simp [processBatch], ?_, ?_⟩
  · intro f u h1 h2
    simp [processLogEntry, h1, h2]
  · intro h1 h2
    simp [processQueue, h1, h2]

/-- Witness for C8: a one-entry batch whose resolution fails falls back to
the original method with the original arguments, and the drain's emissions
are the batch's own results. -/
theorem batch_entries_processed_independently_witness :
    processLogEntry [(Method.log, Fn.native 0)] (.error ())
        ⟨Method.log, [], "s"⟩ = .ok ⟨Fn.native 0, []⟩ ∧
    (processQueue (mkOptions {}) (fun _ => .error ())
        { initE nativeConsole with
            logQueue := [⟨Method.log, [], "s"⟩],
            originalMethods := [(Method.log, Fn.native 0)] }).2.1 =
      (processBatch [(Method.log, Fn.native 0)] (fun _ => .error ())
        ([⟨Method.log, [], "s"⟩].take
          (mkOptions {}).batchSize)).filterMap Except.toOption := by
  have h := batch_entries_processed_independently [(Method.log, Fn.native 0)]
    (fun _ => .error ()) [] [] ⟨Method.log, [], "s"⟩ (mkOptions {})
    { initE nativeConsole with
        logQueue := [⟨Method.log, [], "s"⟩],
        originalMethods := [(Method.log, Fn.native 0)] }
  exact ⟨h.2.1 (Fn.native 0) () rfl rfl, h.2.2 rfl rfl⟩

/-- Restoring the registry recorded by a single `enhance()` on a fresh
instance puts back exactly the pre-install console. -/
theorem restore_after_enhance (c : ConsoleObj) :
    restoreAll (enhance (initE c)).console
      (enhance (initE c)).originalMethods = c := rfl

/-- With an empty registry no batch entry can be emitted: every
`originalMethods.get(method)` is `undefined`, each entry's processing
rejects, and the drain produces no emissions. -/
theorem processBatch_empty_registry (locOf : LogEntry → Except Unit String)
    (l : List LogEntry) :
    (processBatch [] locOf l).filterMap Except.toOption = [] := by
  simp [processBatch, processLogEntry, Except.toOption]

/-- C6: after `cleanup()` completes on an instance that was enhanced once
from console `c` (with any queue, source-map cache and pending registry
accumulated since, and every consumer destroying cleanly), the console is
reference-equal to `c` again and the registry is empty; and a second
`cleanup()` call also returns normally, emits nothing, and leaves the
console at `c` with the registry still empty — a safe no-op. -/
theorem cleanup_restores_console_and_second_cleanup_noop (c : ConsoleObj)
    (q : List LogEntry) (sm : List (String × Nat)) (pend : List String)
    (opts : Options) (locOf : LogEntry → Except Unit String)
    (destroyOk : Nat → Bool) (hd : sm.all (fun p => destroyOk p.2) = true) :
    ((cleanup opts locOf destroyOk
        { enhance (initE c) with
            logQueue := q, sourceMapCache := sm,
            pendingSourceMaps := pend }).toOption.map
      fun r => (r.1.console, r.1.originalMethods, r.1.sourceMapCache,
        r.1.isProcessing)) = some (c, [], [], false) ∧
    ((cleanup opts locOf destroyOk
        { enhance (initE c) with
            logQueue := q, sourceMapCache := sm,
            pendingSourceMaps := pend }).toOption.bind
      fun r => (cleanup opts locOf destroyOk r.1).toOption.map
        fun r2 => (r2.1.console, r2.1.originalMethods, r2.2.1)) =
      some (c, [], []) := by
  have hP : (enhance (initE c)).isProcessing = false := rfl
  have hR : restoreAll (enhance (initE c)).console
      (enhance (initE c)).originalMethods = c := rfl
  have hN : ∀ co : ConsoleObj, restoreAll co [] = co := fun _ => rfl
  constructor
  · by_cases hq : q.isEmpty <;>
      simp [cleanup, processQueue, hq, hd, hP, hR, Except.toOption]
  · by_cases hq : q.isEmpty
    · simp [cleanup, processQueue, hq, hd, hP, hR, hN, Except.toOption,
        processBatch_empty_registry]
      try split_ifs <;> simp [hN]
    · by_cases hq2 : (q.drop opts.batchSize).isEmpty
      · simp [cleanup, processQueue, hq, hq2, hd, hP, hR, hN, Except.toOption,
          processBatch_empty_registry]
        try split_ifs <;> simp [hN]
      · simp [cleanup, processQueue, hq, hq2, hd, hP, hR, hN, Except.toOption,
          processBatch_empty_registry]
        try split_ifs <;> simp [hN]

/-- Witness for C6 at a concrete enhanced instance with one queued entry and
one cached consumer. -/
theorem cleanup_restores_console_witness :
    ((cleanup (mkOptions {}) (fun _ => .ok "L") (fun _ => true)
        { enhance (initE nativeConsole) with
            logQueue := [⟨Method.log, [], "s"⟩], sourceMapCache := [("a", 1)],
            pendingSourceMaps := ["b"] }).toOption.map
      fun r => (r.1.console, r.1.originalMethods, r.1.sourceMapCache,
        r.1.isProcessing)) = some (nativeConsole, [], [], false) ∧
    ((cleanup (mkOptions {}) (fun _ => .ok "L") (fun _ => true)
        { enhance (initE nativeConsole) with
            logQueue := [⟨Method.log, [], "s"⟩], sourceMapCache := [("a", 1)],
            pendingSourceMaps := ["b"] }).toOption.bind
      fun r => (cleanup (mkOptions {}) (fun _ => .ok "L") (fun _ => true)
          r.1).toOption.map
        fun r2 => (r2.1.console, r2.1.originalMethods, r2.2.1)) =
      some (nativeConsole, [], []) :=
  cleanup_restores_console_and_second_cleanup_noop nativeConsole
    [⟨Method.log, [], "s"⟩] [("a", 1)] ["b"] (mkOptions {})
    (fun _ => .ok "L") (fun _ => true) rfl

/-- `enhance` does not touch the log queue. -/
theorem enhance_logQueue (s : EState) : (enhance s).logQueue = s.logQueue :=
  rfl

/-- `loadSourceMap` does not touch the log queue. -/
theorem loadSourceMapOnce_logQueue (opts : Options) (env : LoadEnv)
    (s : EState) (url : String) :
    (loadSourceMapOnce opts env s url).2.1.logQueue = s.logQueue := by
  unfold loadSourceMapOnce
  cases h : s.sourceMapCache.lookup url with
  | some c => rfl
  | none => by_cases hp : url ∈ s.pendingSourceMaps <;> simp [hp]

/-- A drain never grows the queue: it splices a batch off the front. -/
theorem processQueue_logQueue_le (opts : Options)
    (locOf : LogEntry → Except Unit String) (s : EState) :
    (processQueue opts locOf s).1.logQueue.length ≤ s.logQueue.length := by
  unfold processQueue
  split
  · exact Nat.le_refl _
  · simp [List.length_drop]

/-- `cleanup` never grows the queue. -/
theorem cleanup_logQueue_le (opts : Options)
    (locOf : LogEntry → Except Unit String) (destroyOk : Nat → Bool)
    {s s2 : EState} {em : List Emit} {b : Bool}
    (heq : cleanup opts locOf destroyOk s = .ok (s2, em, b)) :
    s2.logQueue.length ≤ s.logQueue.length := by
  by_cases hq : s.logQueue.isEmpty
  · by_cases hall : (s.sourceMapCache.all fun p => destroyOk p.2) = true
    · simp [cleanup, hq, hall] at heq
      obtain ⟨h1, -, -⟩ := heq
      subst h1
      simp
    · simp [cleanup, hq, hall] at heq
  · by_cases hall :
      ((processQueue opts locOf { s with intervalSet := false
        }).1.sourceMapCache.all fun p => destroyOk p.2) = true
    · simp [cleanup, hq, hall] at heq
      obtain ⟨h1, -⟩ := heq
      subst h1
      simpa using processQueue_logQueue_le opts locOf
        { s with intervalSet := false }
    · simp [cleanup, hq, hall] at heq

/-- C4: in every reachable state the log queue holds at most `maxQueueSize`
entries, and a console call arriving with the queue exactly at capacity
stores no entry and immediately invokes the saved original method with the
caller's arguments plus the queue-full marker appended. -/
theorem logQueue_bounded_and_overflow_fallback (opts : Options) (s : EState)
    (h : Reach opts s) :
    s.logQueue.length ≤ opts.maxQueueSize ∧
    ∀ original stack m args, s.logQueue.length = opts.maxQueueSize →
      wrapperCall opts original (.ok stack) s m args =
        (s, some ⟨original, args ++ [queueFullMarker]⟩) := by
  have hb : s.logQueue.length ≤ opts.maxQueueSize := by
    induction h with
    | init c => exact Nat.zero_le _
    | enh h ih => rw [enhance_logQueue]; exact ih
    | @wcall s1 original cap m args h ih =>
      cases cap with
      | error e => exact ih
      | ok stack =>
        by_cases hfull : opts.maxQueueSize ≤ s1.logQueue.length
        · simpa [wrapperCall, hfull] using ih
        · simp only [wrapperCall, hfull, if_false]
          simp only [List.length_append, List.length_cons, List.length_nil]
          omega
    | pq locOf h ih =>
      exact Nat.le_trans (processQueue_logQueue_le opts locOf _) ih
    | lsm env url h ih => rw [loadSourceMapOnce_logQueue]; exact ih
    | cln locOf destroyOk h heq ih =>
      exact Nat.le_trans (cleanup_logQueue_le opts locOf destroyOk heq) ih
  refine ⟨hb, fun original stack m args hfull => ?_⟩
  simp [wrapperCall, hfull]

/-- Witness for C4 with `maxQueueSize = 0`: the fresh queue is at capacity
and a call falls back directly with the marker appended. -/
theorem logQueue_bounded_witness :
    (initE nativeConsole).logQueue.length ≤
      (mkOptions { maxQueueSize := some 0 }).maxQueueSize ∧
    wrapperCall (mkOptions { maxQueueSize := some 0 }) (Fn.native 0)
        (.ok "st") (initE nativeConsole) Method.log [JSVal.str "x"] =
      (initE nativeConsole,
       some ⟨Fn.native 0, [JSVal.str "x", queueFullMarker]⟩) := by
  have h := logQueue_bounded_and_overflow_fallback
    (mkOptions { maxQueueSize := some 0 }) (initE nativeConsole)
    (Reach.init nativeConsole)
  exact ⟨h.1, h.2 (Fn.native 0) "st" Method.log [JSVal.str "x"] rfl⟩

/-- One resolver transition preserves distinctness of the in-flight URLs:
a load starts only for a URL with no pending entry, and completion erases. -/
theorem rstep_pending_nodup (s : RState) (e : REvent)
    (h : s.pending.Nodup) : (rstep s e).pending.Nodup := by
  cases e with
  | call url =>
    by_cases h1 : url ∈ s.memCache
    · simpa [rstep, h1] using h
    · by_cases h2 : url ∈ s.pending
      · simpa [rstep, h1, h2] using h
      · have hstep : (rstep s (REvent.call url)).pending = url :: s.pending := by
          simp [rstep, h1, h2]
        rw [hstep, List.nodup_cons]
        exact ⟨h2, h⟩
  | complete url success =>
    by_cases h1 : url ∈ s.pending
    · have hstep : (rstep s (REvent.complete url success)).pending =
          s.pending.erase url := by
        simp [rstep, h1]
      rw [hstep]
      exact h.erase url
    · simpa [rstep, h1] using h

/-- Distinctness of in-flight URLs is preserved along any event sequence. -/
theorem foldl_rstep_pending_nodup (evs : List REvent) (s : RState)
    (h : s.pending.Nodup) : (evs.foldl rstep s).pending.Nodup := by
  induction evs generalizing s with
  | nil => exact h
  | cons e t ih => exact ih (rstep s e) (rstep_pending_nodup s e h)

/-- While only calls have happened (no load has completed yet), the memory
cache stays empty, the in-flight set coincides with the set of started
loads, and a URL is in flight exactly when some call for it has occurred. -/
theorem foldl_rstep_calls (evs : List REvent) (s : RState)
    (hc : ∀ e ∈ evs, ∃ u, e = REvent.call u)
    (hmem : s.memCache = []) (hps : s.pending = s.startedLoads) :
    (evs.foldl rstep s).memCache = [] ∧
    (evs.foldl rstep s).pending = (evs.foldl rstep s).startedLoads ∧
    ∀ url, url ∈ (evs.foldl rstep s).pending ↔
      (url ∈ s.pending ∨ REvent.call url ∈ evs) := by
  induction evs generalizing s with
  | nil =>
    refine ⟨hmem, hps, fun url => ?_⟩
    simp
  | cons e t ih =>
    obtain ⟨u, rfl⟩ := hc e (List.mem_cons_self e t)
    have hc2 : ∀ e ∈ t, ∃ u, e = REvent.call u := fun e he =>
      hc e (List.mem_cons_of_mem _ he)
    have h1 : ¬ u ∈ s.memCache := by rw [hmem]; exact List.not_mem_nil u
    by_cases h2 : u ∈ s.pending
    · have hstep : rstep s (REvent.call u) = s := by simp [rstep, h1, h2]
      rw [List.foldl_cons, hstep]
      obtain ⟨g1, g2, g3⟩ := ih s hc2 hmem hps
      refine ⟨g1, g2, fun url => ?_⟩
      rw [g3 url]
      by_cases hu : url = u
      · subst hu; simp [h2]
      · simp [List.mem_cons, REvent.call.injEq, hu]
    · have hstep : rstep s (REvent.call u) =
          { s with pending := u :: s.pending,
                   startedLoads := u :: s.startedLoads } := by
        simp [rstep, h1, h2]
      rw [List.foldl_cons, hstep]
      obtain ⟨g1, g2, g3⟩ := ih
        { s with pending := u :: s.pending,
                 startedLoads := u :: s.startedLoads }
        hc2 hmem (congrArg (List.cons u) hps)
      refine ⟨g1, g2, fun url => ?_⟩
      rw [g3 url]
      by_cases hu : url = u
      · subst hu; simp
      · simp [List.mem_cons, REvent.call.injEq, hu]

/-- C5: in every resolver run, (i) the in-flight registry never holds two
entries for one URL; (ii) when a load for `url` completes — successfully or
not — its in-flight entry is gone; (iii) as long as the first load has not
completed, all calls for `url` share that load: however many calls occurred,
exactly one load (hence one cache-probe/network fetch) for `url` was
started. -/
theorem pending_unique_and_single_fetch (evs : List REvent) (url : String)
    (b : Bool) :
    (rrun evs).pending.Nodup ∧
    url ∉ (rrun (evs ++ [REvent.complete url b])).pending ∧
    ((∀ e ∈ evs, ∃ u, e = REvent.call u) → REvent.call url ∈ evs →
      (rrun evs).startedLoads.count url = 1) := by
  have hnd : (rrun evs).pending.Nodup :=
    foldl_rstep_pending_nodup evs ⟨[], [], []⟩ List.nodup_nil
  refine ⟨hnd, ?_, ?_⟩
  · unfold rrun
    rw [List.foldl_append]
    simp only [List.foldl_cons, List.foldl_nil]
    by_cases hp : url ∈ (List.foldl rstep ⟨[], [], []⟩ evs).pending
    · have hstep :
          (rstep (List.foldl rstep ⟨[], [], []⟩ evs)
            (REvent.complete url b)).pending =
          (List.foldl rstep ⟨[], [], []⟩ evs).pending.erase url := by
        simp [rstep, hp]
      rw [hstep]
      intro hmem
      exact ((hnd.mem_erase_iff).1 hmem).1 rfl
    · have hstep :
          rstep (List.foldl rstep ⟨[], [], []⟩ evs) (REvent.complete url b) =
          List.foldl rstep ⟨[], [], []⟩ evs := by
        simp [rstep, hp]
      rw [hstep]
      exact hp
  · intro hc hm
    obtain ⟨-, g2, g3⟩ := foldl_rstep_calls evs ⟨[], [], []⟩ hc rfl rfl
    have hmem : url ∈ (rrun evs).pending := (g3 url).2 (Or.inr hm)
    show ((List.foldl rstep ⟨[], [], []⟩ evs).startedLoads).count url = 1
    rw [← g2]
    exact List.count_eq_one_of_mem hnd hmem

/-- Witness for C5: three interleaved calls, two of them for `"a"`, before
any completion start exactly one load for `"a"`. -/
theorem pending_unique_and_single_fetch_witness :
    (rrun [REvent.call "a", REvent.call "a",
      REvent.call "b"]).startedLoads.count "a" = 1 :=
  (pending_unique_and_single_fetch
      [REvent.call "a", REvent.call "a", REvent.call "b"] "a" true).2.2
    (by intro e he; fin_cases he <;> exact ⟨_, rfl⟩) (by simp)

end EnhancedConsole
